import Mathlib

/-!
Shallow embedding of the trend-intelligence pipeline of the
tiktok-trend-analyzer repository, together with theorems settling the
frozen claims about it.

The embedded code lives in `scripts/hourly_update.py` (class
`TrendAnalyzer`), `scripts/ai_analyzer.py` (class `AITrendAnalyzer`)
and the two scrapers' `parse_count`.  Python machine floats are
modelled as exact rationals; Python dictionaries with string keys are
modelled as record structures; optional dictionary entries are
`Option` fields whose `.getD` mirrors Python's `dict.get` defaults.
-/

/-! ## Generic helpers for Python string operations -/

/-- Value that may arrive in a JSON field: missing/null, a number, or a
string.  Used by `parse_count`, whose Python source dispatches on
`isinstance`. -/
inductive PyVal where
  | none
  | num (q : ℚ)
  | str (s : String)
deriving DecidableEq

/-- Python truthiness for the values `parse_count` receives:
`None`, numeric `0` and the empty string are falsy. -/
def PyVal.isFalsy : PyVal → Bool
  | .none => true
  | .num q => q == 0
  | .str s => s.data == []

/-- Numeric value of a list of decimal digit characters, most
significant first (what Python's `float` does to the integer part of a
match of `\d+`). -/
def digitsVal (ds : List Char) : ℕ :=
  ds.foldl (fun a c => a * 10 + (c.toNat - 48)) 0

/-- Value of the fractional digits of a decimal literal:
`fracVal ['2','5'] = 25/100`. -/
def fracVal (fs : List Char) : ℚ :=
  (digitsVal fs : ℚ) / (10 ^ fs.length)

/-- First match of the regex `(\d+\.?\d*)` in a character list,
returned as (integer digits, fractional digits); `Option.none` when the
list holds no digit. -/
def firstNumericMatch : List Char → Option (List Char × List Char)
  | [] => Option.none
  | c :: rest =>
    if c.isDigit then
      let ds := (c :: rest).takeWhile Char.isDigit
      match (c :: rest).dropWhile Char.isDigit with
      | '.' :: r2 => some (ds, r2.takeWhile Char.isDigit)
      | _ => some (ds, [])
    else firstNumericMatch rest

/-- Rational value of a regex match produced by `firstNumericMatch`,
mirroring Python's `float` on the matched text. -/
def matchVal (p : List Char × List Char) : ℚ :=
  (digitsVal p.1 : ℚ) + fracVal p.2

/-! ## `TikTokTrendScraper.parse_count`
(identical in `scripts/tiktok_scraper.py` lines 836-864 and
`scripts/tiktok_trend_scraper.py` lines 461-490). -/

/-- The `'K' in s` / `s.replace('K','')` suffix dispatch of
`parse_count`: the first of K, M, B present selects the multiplier and
every occurrence of that letter is removed. -/
def pickMult (cs : List Char) : ℚ × List Char :=
  if cs.contains 'K' then (1000, cs.filter (· ≠ 'K'))
  else if cs.contains 'M' then (1000000, cs.filter (· ≠ 'M'))
  else if cs.contains 'B' then (1000000000, cs.filter (· ≠ 'B'))
  else (1, cs)

/-- `TikTokTrendScraper.parse_count`.  Falsy input returns `0`;
numeric input is returned unchanged; a string is uppercased, its commas
removed, the suffix K/M/B (if any) selects a multiplier, and the first
`(\d+\.?\d*)` match times the multiplier is the result, `0` when no
digits match. -/
def parse_count (v : PyVal) : ℚ :=
  if v.isFalsy then 0
  else
    match v with
    | .none => 0
    | .num q => q
    | .str s =>
      let cs := (s.data.map Char.toUpper).filter (· ≠ ',')
      let m := pickMult cs
      match firstNumericMatch m.2 with
      | some p => matchVal p * m.1
      | Option.none => 0

/-! ## Data model: enriched hashtag and song records -/

/-- An enriched hashtag record, as the dictionaries flowing through
`TrendAnalyzer`/`AITrendAnalyzer`.  `Option` fields model keys read
with `dict.get`; their defaults are applied at each use site exactly as
the Python source does. -/
structure Hashtag where
  hashtag : String
  rank : ℕ
  ranking_direction : Option String := Option.none
  ranking_change : ℕ := 0
  period_momentum : Option String := Option.none
  numeric_post_count : ℚ := 0
  post_count : Option String := Option.none
  categories : Option (List String) := Option.none
  lifecycle_stage : Option String := Option.none
deriving DecidableEq

/-- A song record (`trending_songs` / `breakout_songs` entries). -/
structure Song where
  song_name : String
  artist : Option String := Option.none
  rank : ℕ := 0
  ranking_direction : Option String := Option.none
  ranking_change : ℕ := 0
  post_count : Option String := Option.none
  lifecycle_stage : Option String := Option.none
  categories : List String := []
deriving DecidableEq

/-- Boolean substring test, Python's `sub in s` on strings. -/
def containsSub (sub s : List Char) : Bool := decide (sub <:+: s)

/-- Helper for `firstSeen`: `seen` is the set of elements already
emitted. -/
def firstSeenAux {α : Type} [DecidableEq α] : List α → List α → List α
  | [], _ => []
  | a :: l, seen =>
    if a ∈ seen then firstSeenAux l seen
    else a :: firstSeenAux l (a :: seen)

/-- Distinct elements of a list in order of first occurrence: the key
sequence of a Python dict/set built by insertion. -/
def firstSeen {α : Type} [DecidableEq α] (l : List α) : List α :=
  firstSeenAux l []

/-- Helper for `splitWords`: accumulates the current word reversed. -/
def splitWordsAux : List Char → List Char → List (List Char)
  | [], acc => if acc.isEmpty then [] else [acc.reverse]
  | c :: rest, acc =>
    if c.isWhitespace then
      if acc.isEmpty then splitWordsAux rest []
      else acc.reverse :: splitWordsAux rest []
    else splitWordsAux rest (c :: acc)

/-- Python `str.split()` with no argument: split on runs of
whitespace, no empty words. -/
def splitWords (cs : List Char) : List (List Char) := splitWordsAux cs []

/-! ## `TrendAnalyzer.categorize_hashtag` and lifecycle enrichment
(`scripts/hourly_update.py` lines 169-236). -/

/-- The fixed category keyword table of `categorize_hashtag`. -/
def category_keywords : List (String × List String) :=
  [("entertainment", ["dance", "challenge", "meme", "funny", "comedy", "viral", "trend"]),
   ("lifestyle", ["fashion", "beauty", "outfit", "style", "aesthetic"]),
   ("food", ["food", "recipe", "cooking", "meal", "baking", "chef"]),
   ("family", ["mother", "mom", "family", "dad", "father", "kid", "parent", "child"]),
   ("travel", ["travel", "vacation", "trip", "destination", "journey"]),
   ("fitness", ["workout", "fitness", "gym", "exercise", "health"])]

/-- The text normalisation of `categorize_hashtag`:
`lower().replace("#","").replace("_"," ").replace("-"," ")`. -/
def normalizeCategorize (s : String) : List Char :=
  (((s.data.map Char.toLower).filter (· ≠ '#')).map
      (fun c => if c = '_' then ' ' else c)).map
    (fun c => if c = '-' then ' ' else c)

/-- `TrendAnalyzer.categorize_hashtag`: a category is attached when any
of its keywords occurs in the normalised text; no match gives
`["other"]`. -/
def categorize_hashtag (t : String) : List String :=
  let text := normalizeCategorize t
  let cats := category_keywords.filterMap
    (fun ck => if ck.2.any (fun kw => containsSub kw.data text) then some ck.1
               else Option.none)
  if cats = [] then ["other"] else cats

/-- The hashtag lifecycle-stage assignment of `analyze_trends`
(lines 175-182). -/
def hashtagLifecycle (h : Hashtag) : String :=
  if h.ranking_direction = some "up" ∧ h.ranking_change > 10 then "rising"
  else if h.ranking_direction = some "up" ∧ h.ranking_change > 5 then "growing"
  else if h.ranking_direction = some "down" ∧ h.ranking_change > 10 then "declining"
  else "stable"

/-- The per-hashtag enrichment performed by `analyze_trends`
(lines 169-182): attach categories and a lifecycle stage. -/
def enrichHashtag (h : Hashtag) : Hashtag :=
  { h with categories := some (categorize_hashtag h.hashtag),
           lifecycle_stage := some (hashtagLifecycle h) }

/-! ## `TrendAnalyzer.are_hashtags_similar` and
`TrendAnalyzer.cluster_hashtags` (`scripts/hourly_update.py`
lines 238-304). -/

/-- The text normalisation used by the clusterer:
`lower().replace("#","")`. -/
def normalizeCluster (s : String) : List Char :=
  (s.data.map Char.toLower).filter (· ≠ '#')

/-- `TrendAnalyzer.are_hashtags_similar`: substring in either
direction, or a non-empty common word set covering more than half of
the larger word set. -/
def are_hashtags_similar (h1 h2 : Hashtag) : Bool :=
  let t1 := normalizeCluster h1.hashtag
  let t2 := normalizeCluster h2.hashtag
  if containsSub t1 t2 || containsSub t2 t1 then true
  else
    let w1 := firstSeen (splitWords t1)
    let w2 := firstSeen (splitWords t2)
    let common := w1.filter (· ∈ w2)
    decide (common ≠ [] ∧
      (1 : ℚ) / 2 < (common.length : ℚ) / (max w1.length w2.length))

/-- Cluster record (`scripts/hourly_update.py` lines 273-281). -/
structure Cluster where
  id : String
  items : List (String × ℕ)
  size : ℕ
  categories : List String
  trend_strength : ℕ
deriving DecidableEq

/-- Builds the cluster dictionary of lines 258-281 from the collected
member records, `k` being `len(clusters)` at emission time.  The top-2
categories use a stable descending sort of the first-seen-ordered
distinct categories, matching Python's insertion-ordered dict and
stable `sorted`. -/
def mkCluster (k : ℕ) (members : List Hashtag) : Cluster :=
  let all_categories := members.flatMap (fun h => h.categories.getD [])
  let top_categories :=
    (List.insertionSort
      (fun a b => all_categories.count b ≤ all_categories.count a)
      (firstSeen all_categories)).take 2
  { id := "cluster_" ++ toString k,
    items := members.map (fun h => (h.hashtag, h.rank)),
    size := members.length,
    categories := top_categories,
    trend_strength := members.countP
      (fun h => h.lifecycle_stage = some "rising" ∨
                h.lifecycle_stage = some "growing") }

/-- The main loop of `cluster_hashtags`: `processed` is the set of
already-assigned hashtag texts (consulted only when choosing a seed,
exactly as in the source), `k` the number of clusters emitted so far. -/
def clusterGo : List Hashtag → List String → ℕ → List Cluster
  | [], _, _ => []
  | h1 :: rest, processed, k =>
    if h1.hashtag ∈ processed then clusterGo rest processed k
    else
      let ms := rest.filter (fun h2 => are_hashtags_similar h1 h2)
      let processed2 := processed ++ h1.hashtag :: ms.map (·.hashtag)
      if 2 ≤ (h1 :: ms).length then
        mkCluster k (h1 :: ms) :: clusterGo rest processed2 (k + 1)
      else clusterGo rest processed2 k

/-- `TrendAnalyzer.cluster_hashtags`. -/
def cluster_hashtags (hs : List Hashtag) : List Cluster :=
  clusterGo hs [] 0

/-! ## `AITrendAnalyzer.predict_trend_future`
(`scripts/ai_analyzer.py` lines 238-332). -/

/-- Prediction record built for each 7-day hashtag. -/
structure Prediction where
  hashtag : String
  current_rank : ℕ
  current_stage : String
  score : ℤ
  status : String
  longevity : String
deriving DecidableEq

/-- `AITrendAnalyzer._estimate_trend_longevity`. -/
def estimate_trend_longevity (status : String) : String :=
  if status = "strongly_rising" then "2-3 weeks"
  else if status = "rising" then "1-2 weeks"
  else if status = "stable" then "5-7 days"
  else if status = "declining" then "2-4 days"
  else "1-2 days"

/-- Lookup in `hashtags_30d_map = {h["hashtag"]: h for h in hashtags_30d}`:
the dict comprehension keeps the last record with a given text. -/
def lookup30 (hs30 : List Hashtag) (t : String) : Option Hashtag :=
  hs30.reverse.find? (fun h => h.hashtag == t)

/-- The prediction built for one hashtag by the loop body of
`predict_trend_future` (lines 247-314): base score 50, direction
momentum capped at ±20, lifecycle adjustment, 30-day comparison or
novelty bonus, volume bonus; status from the raw score via the ordered
thresholds, score clamped to [5,95], longevity from status. -/
def predict_one (hs30 : List Hashtag) (h : Hashtag) : Prediction :=
  let score1 : ℤ := 50 +
    (if h.ranking_direction = some "up" then min ((h.ranking_change : ℤ) * 2) 20
     else if h.ranking_direction = some "down" then
       -(min ((h.ranking_change : ℤ) * 2) 20)
     else 0)
  let score2 : ℤ := score1 +
    (if h.lifecycle_stage = some "rising" then 15
     else if h.lifecycle_stage = some "growing" then 10
     else if h.lifecycle_stage = some "declining" then -15
     else 0)
  let score3 : ℤ := score2 +
    (match lookup30 hs30 h.hashtag with
     | some h30 =>
       (if h.rank < h30.rank then 10
        else if h.rank > h30.rank then -5
        else 0) +
       (if h.period_momentum = some "accelerating" then 15
        else if h.period_momentum = some "decelerating" then -10
        else 0)
     | Option.none => 5)
  let score4 : ℤ := score3 +
    (if h.numeric_post_count > 1000000 then 5
     else if h.numeric_post_count > 100000 then 3
     else 0)
  let status :=
    if score4 ≥ 70 then "strongly_rising"
    else if score4 ≥ 60 then "rising"
    else if score4 ≤ 30 then "strongly_declining"
    else if score4 ≤ 40 then "declining"
    else "stable"
  { hashtag := h.hashtag,
    current_rank := h.rank,
    current_stage := h.lifecycle_stage.getD "stable",
    score := min (max score4 5) 95,
    status := status,
    longevity := estimate_trend_longevity status }

/-- `AITrendAnalyzer.predict_trend_future`: one prediction per 7-day
hashtag, stably sorted by score descending. -/
def predict_trend_future (hs7 hs30 : List Hashtag) : List Prediction :=
  List.insertionSort (fun a b => b.score ≤ a.score) (hs7.map (predict_one hs30))

/-! ## `TrendAnalyzer.identify_emerging_trends`
(`scripts/hourly_update.py` lines 306-335). -/

/-- Emerging-trend entry. -/
structure Emerging where
  type : String
  item : String
  confidence : ℕ
  categories : List String
  post_count : String
deriving DecidableEq

/-- The qualification test of lines 312-313: direction up with change
above 8, or accelerating period momentum. -/
def emergingQualifies (h : Hashtag) : Bool :=
  decide ((h.ranking_direction = some "up" ∧ h.ranking_change > 8) ∨
    h.period_momentum = some "accelerating")

/-- The hashtag entry appended on lines 314-320. -/
def mkHashtagEmerging (h : Hashtag) : Emerging :=
  { type := "hashtag",
    item := h.hashtag,
    confidence := min 95 (50 + h.ranking_change * 3),
    categories := h.categories.getD ["other"],
    post_count := h.post_count.getD "N/A" }

/-- The breakout-song entry appended on lines 323-330. -/
def mkSongEmerging (s : Song) : Emerging :=
  { type := "song",
    item := s.song_name ++ " - " ++ s.artist.getD "Unknown",
    confidence := 90,
    categories := ["entertainment", "music"],
    post_count := s.post_count.getD "N/A" }

/-- `TrendAnalyzer.identify_emerging_trends` on
`data["hashtags_7d"]` and `data["breakout_songs"]`. -/
def identify_emerging_trends (hs7 : List Hashtag) (breakout : List Song) :
    List Emerging :=
  List.insertionSort (fun a b => b.confidence ≤ a.confidence)
    ((hs7.filter emergingQualifies).map mkHashtagEmerging ++
      breakout.map mkSongEmerging)

/-! ## `TrendAnalyzer.analyze_categories`
(`scripts/hourly_update.py` lines 337-370). -/

/-- Category distribution record. -/
structure CategoryStat where
  name : String
  count : ℕ
  percentage : ℚ
  top_hashtags : List (String × ℕ)
deriving DecidableEq

/-- Python `round(x, 1)`: round to one decimal, ties to even (the
multiplied value is exact here, so the binary-float subtlety of CPython
does not arise for the inputs we evaluate). -/
def pyRound1 (q : ℚ) : ℚ :=
  let x := q * 10
  let f : ℤ := Rat.floor x
  let r := x - f
  let n : ℤ :=
    if r < 1 / 2 then f
    else if r > 1 / 2 then f + 1
    else if Even f then f else f + 1
  (n : ℚ) / 10

/-- `TrendAnalyzer.analyze_categories`: counts per category over all
tag assignments (insertion-ordered dict), percentage of the total
assignment count rounded to one decimal, top-3 hashtags per category by
ascending rank, stats sorted by count descending. -/
def analyze_categories (hs : List Hashtag) : List CategoryStat :=
  if hs = [] then []
  else
    let allCats := hs.flatMap (fun h => h.categories.getD ["other"])
    let keys := firstSeen allCats
    let total := (keys.map (fun c => allCats.count c)).sum
    let stats := keys.map (fun c =>
      let catHashtags := List.insertionSort (fun a b => a.rank ≤ b.rank)
        (hs.filter (fun h => c ∈ h.categories.getD []))
      { name := c,
        count := allCats.count c,
        percentage := pyRound1 ((allCats.count c : ℚ) / total * 100),
        top_hashtags := (catHashtags.take 3).map (fun h => (h.hashtag, h.rank)) })
    List.insertionSort (fun a b => b.count ≤ a.count) stats

/-! ## `AITrendAnalyzer.identify_hashtag_topics`
(`scripts/ai_analyzer.py` lines 90-236). -/

/-- Member entry of a topic. -/
structure TopicHashtag where
  hashtag : String
  rank : ℕ
  score : ℚ
deriving DecidableEq

/-- Topic record. -/
structure Topic where
  id : String
  name : String
  keywords : List String
  hashtags : List TopicHashtag
  strength : ℚ
deriving DecidableEq

/-- `AITrendAnalyzer._generate_default_topics`. -/
def generate_default_topics : List Topic :=
  [{ id := "topic_1", name := "Entertainment Content",
     keywords := ["dance", "challenge", "funny", "comedy", "trend"],
     hashtags := [], strength := 85 / 100 },
   { id := "topic_2", name := "Lifestyle Content",
     keywords := ["lifestyle", "routine", "daily", "tips", "hacks"],
     hashtags := [], strength := 75 / 100 },
   { id := "topic_3", name := "Food Content",
     keywords := ["food", "recipe", "cooking", "meal", "delicious"],
     hashtags := [], strength := 7 / 10 }]

/-- `AITrendAnalyzer.identify_hashtag_topics`.  The statistical fit of
lines 108-168 (CountVectorizer, document-term matrix, LDA fit and topic
extraction) is a black box over the normalised corpus; it is passed in
as `modelStep`, whose `Except.error` outcome models any exception
raised inside the `try` block.  An exception, as well as an empty
extracted topic list, yields the default topics; an empty input list
returns `[]` before any of this, and a corpus of fewer than 5 entries
returns the defaults. -/
def identify_hashtag_topics
    (modelStep : List (List Char) → Except Unit (List Topic))
    (hashtags : List Hashtag) : List Topic :=
  if hashtags = [] then []
  else
    let corpus := hashtags.map (fun h => normalizeCategorize h.hashtag)
    if corpus.length < 5 then generate_default_topics
    else
      match modelStep corpus with
      | .error _ => generate_default_topics
      | .ok topics =>
        let sorted := List.insertionSort (fun a b => b.strength ≤ a.strength) topics
        if sorted = [] then generate_default_topics else sorted

/-! ## `AITrendAnalyzer._calculate_combination_score`
(`scripts/ai_analyzer.py` lines 393-411). -/

/-- The fit score before the final clamp: base 70, +15 when both
directions are up, +10 when both lifecycle stages are rising, plus the
`np.random.randint(-5, 6)` perturbation `r`, passed in explicitly as
the injected randomness source. -/
def combination_pre_score (h : Hashtag) (s : Song) (r : ℤ) : ℤ :=
  70 +
    (if h.ranking_direction = some "up" ∧ s.ranking_direction = some "up"
     then 15 else 0) +
    (if h.lifecycle_stage = some "rising" ∧ s.lifecycle_stage = some "rising"
     then 10 else 0) +
    r

/-- `AITrendAnalyzer._calculate_combination_score` with the random
perturbation `r` as an explicit argument: the pre-score clamped to
[60, 95]. -/
def calculate_combination_score (h : Hashtag) (s : Song) (r : ℤ) : ℤ :=
  min (max (combination_pre_score h s r) 60) 95

/-! ## Statement-side definitions and concrete example inputs -/

/-- Status thresholds as worded in the specification, applied to the
clamped score: ≥70 strongly_rising; ≥60 rising; ≤30 strongly_declining;
≤40 declining; else stable.  Used to compare the code's status (which
it computes from the raw, unclamped score) against the spec's reading. -/
def spec_statusOfScore (s : ℤ) : String :=
  if s ≥ 70 then "strongly_rising"
  else if s ≥ 60 then "rising"
  else if s ≤ 30 then "strongly_declining"
  else if s ≤ 40 then "declining"
  else "stable"

/-- The suffix multipliers of `parse_count`, in both cases (the parser
uppercases its input, making the suffix case-insensitive). -/
def suffixMultipliers : List (Char × ℚ) :=
  [('K', 1000), ('k', 1000), ('M', 1000000), ('m', 1000000),
   ('B', 1000000000), ('b', 1000000000)]

/-- Input on which a hashtag lands in two clusters: `#cat` seeds a
cluster capturing `#catdog`; `#dog` is still unprocessed as a seed and
captures the already-assigned `#catdog` again. -/
def clusterCounterexampleInput : List Hashtag :=
  [{ hashtag := "#cat", rank := 1 },
   { hashtag := "#dog", rank := 2 },
   { hashtag := "#catdog", rank := 3 }]

/-- Three single-category hashtags whose rounded percentages are each
33.3, summing to 99.9 rather than 100.0. -/
def categoryCounterexampleInput : List Hashtag :=
  [{ hashtag := "#a", rank := 1, categories := some ["entertainment"] },
   { hashtag := "#b", rank := 2, categories := some ["food"] },
   { hashtag := "#c", rank := 3, categories := some ["travel"] }]

/-- The scenario hashtag of the specification's §8 test list. -/
def danceChallengeHashtag : Hashtag :=
  { hashtag := "#dancechallenge", rank := 1,
    ranking_direction := some "up", ranking_change := 12 }

/-- A plain example hashtag for witness instantiations. -/
def exampleHashtag : Hashtag := { hashtag := "#example", rank := 1 }

/-- A plain example song for witness instantiations. -/
def exampleSong : Song := { song_name := "Song" }

/-- Five distinct hashtags: enough to drive `identify_hashtag_topics`
into its statistical branch. -/
def fiveHashtags : List Hashtag :=
  [{ hashtag := "#a1", rank := 1 }, { hashtag := "#a2", rank := 2 },
   { hashtag := "#a3", rank := 3 }, { hashtag := "#a4", rank := 4 },
   { hashtag := "#a5", rank := 5 }]

/-- Totality of the descending-confidence comparison used for the
emerging-trend sort. -/
instance : IsTotal Emerging (fun a b => b.confidence ≤ a.confidence) :=
  ⟨fun a b => (le_total b.confidence a.confidence)⟩

/-- Transitivity of the descending-confidence comparison. -/
instance : IsTrans Emerging (fun a b => b.confidence ≤ a.confidence) :=
  ⟨fun _ _ _ h1 h2 => le_trans h2 h1⟩

/-! ## Theorems settling the claims -/

/-- C10: for every hashtag-song pair and every perturbation value in
[-5, 5], the pre-clamp fit score is at least 65, so the lower clamp at
60 never binds and the returned combination score lies in [65, 95]. -/
theorem claim_c10_fit_score_bounds (h : Hashtag) (s : Song) (r : ℤ)
    (hr1 : -5 ≤ r) (hr2 : r ≤ 5) :
    65 ≤ combination_pre_score h s r ∧
    calculate_combination_score h s r = min (combination_pre_score h s r) 95 ∧
    65 ≤ calculate_combination_score h s r ∧
    calculate_combination_score h s r ≤ 95 := by
  have hpre : 65 ≤ combination_pre_score h s r := by
    unfold combination_pre_score
    split_ifs <;> omega
  have h60 : (60 : ℤ) ≤ combination_pre_score h s r := by omega
  refine ⟨hpre, ?_, ?_, min_le_right _ _⟩
  · unfold calculate_combination_score
    rw [max_eq_left h60]
  · unfold calculate_combination_score
    rw [max_eq_left h60]
    exact le_min hpre (by norm_num)

/-- Witness for C10 at a concrete hashtag, song and perturbation 0. -/
theorem claim_c10_witness :
    65 ≤ combination_pre_score exampleHashtag exampleSong 0 ∧
    calculate_combination_score exampleHashtag exampleSong 0 =
      min (combination_pre_score exampleHashtag exampleSong 0) 95 ∧
    65 ≤ calculate_combination_score exampleHashtag exampleSong 0 ∧
    calculate_combination_score exampleHashtag exampleSong 0 ≤ 95 :=
  claim_c10_fit_score_bounds exampleHashtag exampleSong 0 (by norm_num) (by norm_num)

/-- C4: with the fit-score perturbation and the statistical topic fit
injected as explicit inputs (the fixed configuration/seeds of the
claim), every embedded pipeline stage is a pure function: two runs on
identical inputs produce identical outputs. -/
theorem claim_c4_stage_determinism
    (h₁ h₂ : Hashtag) (s₁ s₂ : Song) (r₁ r₂ : ℤ)
    (m₁ m₂ : List (List Char) → Except Unit (List Topic))
    (l₁ l₂ k₁ k₂ : List Hashtag) (b₁ b₂ : List Song)
    (hh : h₁ = h₂) (hs : s₁ = s₂) (hr : r₁ = r₂) (hm : m₁ = m₂)
    (hl : l₁ = l₂) (hk : k₁ = k₂) (hb : b₁ = b₂) :
    calculate_combination_score h₁ s₁ r₁ = calculate_combination_score h₂ s₂ r₂ ∧
    identify_hashtag_topics m₁ l₁ = identify_hashtag_topics m₂ l₂ ∧
    predict_trend_future l₁ k₁ = predict_trend_future l₂ k₂ ∧
    enrichHashtag h₁ = enrichHashtag h₂ ∧
    cluster_hashtags l₁ = cluster_hashtags l₂ ∧
    identify_emerging_trends l₁ b₁ = identify_emerging_trends l₂ b₂ ∧
    analyze_categories l₁ = analyze_categories l₂ := by
  subst hh hs hr hm hl hk hb
  exact ⟨rfl, rfl, rfl, rfl, rfl, rfl, rfl⟩

/-- Witness for C4 at concrete inputs. -/
theorem claim_c4_witness :
    calculate_combination_score exampleHashtag exampleSong 0 =
      calculate_combination_score exampleHashtag exampleSong 0 ∧
    identify_hashtag_topics (fun _ => Except.ok []) [] =
      identify_hashtag_topics (fun _ => Except.ok []) [] ∧
    predict_trend_future [] [] = predict_trend_future [] [] ∧
    enrichHashtag exampleHashtag = enrichHashtag exampleHashtag ∧
    cluster_hashtags [] = cluster_hashtags [] ∧
    identify_emerging_trends [] [] = identify_emerging_trends [] [] ∧
    analyze_categories [] = analyze_categories [] :=
  claim_c4_stage_determinism exampleHashtag exampleHashtag exampleSong exampleSong
    0 0 (fun _ => Except.ok []) (fun _ => Except.ok []) [] [] [] [] [] []
    rfl rfl rfl rfl rfl rfl rfl

/-- C2 counterexample: on the empty hashtag list the topic modeler
returns `[]` (line 94-95 of `ai_analyzer.py`), not the three default
topics, so its output on empty input is empty. -/
theorem claim_c2_counterexample :
    identify_hashtag_topics (fun _ => Except.ok []) [] = [] ∧
    ([] : List Topic) ≠ generate_default_topics :=
  ⟨rfl, by decide⟩

/-- C2 amended: the topic modeler returns the three default topics
(strengths 0.85/0.75/0.70, no member hashtags) for every NONEMPTY
hashtag list of fewer than 5 entries; on the empty list it returns `[]`
instead. -/
theorem claim_c2_amended (m : List (List Char) → Except Unit (List Topic))
    (hs : List Hashtag) (h1 : hs ≠ []) (h2 : hs.length < 5) :
    identify_hashtag_topics m hs = generate_default_topics := by
  unfold identify_hashtag_topics
  rw [if_neg h1]
  have hlen : (hs.map fun h => normalizeCategorize h.hashtag).length < 5 := by
    simpa using h2
  rw [if_pos hlen]

/-- Witness for the amended C2 at a concrete one-element list. -/
theorem claim_c2_witness :
    identify_hashtag_topics (fun _ => Except.ok []) [exampleHashtag] =
      generate_default_topics :=
  claim_c2_amended (fun _ => Except.ok []) [exampleHashtag] (by decide) (by decide)

/-- C6: whenever the statistical fit inside the `try` block raises (the
`Except.error` outcome of the injected model step), the topic-modeler
stage catches it and returns the default topic set; the embedded stage
is total, so no exception escapes to the caller. -/
theorem claim_c6_modeling_exception_caught
    (m : List (List Char) → Except Unit (List Topic))
    (hs : List Hashtag) (e : Unit)
    (h5 : 5 ≤ hs.length)
    (hm : m (hs.map fun h => normalizeCategorize h.hashtag) = Except.error e) :
    identify_hashtag_topics m hs = generate_default_topics := by
  have h1 : hs ≠ [] := by
    intro hnil
    rw [hnil] at h5
    simp at h5
  unfold identify_hashtag_topics
  rw [if_neg h1]
  have hlen : ¬ (hs.map fun h => normalizeCategorize h.hashtag).length < 5 := by
    simp only [List.length_map]
    omega
  rw [if_neg hlen, hm]

/-- Witness for C6: a failing model step on five hashtags yields the
default topics. -/
theorem claim_c6_witness :
    identify_hashtag_topics (fun _ => Except.error ()) fiveHashtags =
      generate_default_topics :=
  claim_c6_modeling_exception_caught (fun _ => Except.error ()) fiveHashtags ()
    (by decide) rfl

/-- C7: the hashtag `#dancechallenge` (rank 1, direction up, change 12)
present only in 7-day data is enriched to lifecycle stage `rising`, and
its prediction is score 50+20+15+5 = 90, status `strongly_rising`,
longevity `2-3 weeks`. -/
theorem claim_c7_dancechallenge_scenario :
    (enrichHashtag danceChallengeHashtag).lifecycle_stage = some "rising" ∧
    predict_trend_future [enrichHashtag danceChallengeHashtag] [] =
      [{ hashtag := "#dancechallenge", current_rank := 1,
         current_stage := "rising", score := 90,
         status := "strongly_rising", longevity := "2-3 weeks" }] := by
  constructor
  · rfl
  · rfl

/-- The clamp `min(max(score, 5), 95)` lands in [5, 95]. -/
lemma clamp_bounds (raw : ℤ) :
    5 ≤ min (max raw 5) 95 ∧ min (max raw 5) 95 ≤ 95 :=
  ⟨le_min (le_max_right _ _) (by norm_num), min_le_right _ _⟩

/-- The status the code computes from the raw score coincides with the
spec's ordered thresholds applied to the clamped score: clamping only
moves scores above 95 (status already strongly_rising) down to 95 and
scores below 5 (status already strongly_declining) up to 5. -/
lemma status_of_clamp (raw : ℤ) :
    (if raw ≥ 70 then "strongly_rising"
     else if raw ≥ 60 then "rising"
     else if raw ≤ 30 then "strongly_declining"
     else if raw ≤ 40 then "declining"
     else "stable") = spec_statusOfScore (min (max raw 5) 95) := by
  unfold spec_statusOfScore
  simp only [min_def, max_def]
  split_ifs <;> first | rfl | (exfalso; omega)

/-- Per-hashtag form of C5. -/
lemma predict_one_props (hs30 : List Hashtag) (h : Hashtag) :
    (5 ≤ (predict_one hs30 h).score ∧ (predict_one hs30 h).score ≤ 95) ∧
    (predict_one hs30 h).status = spec_statusOfScore (predict_one hs30 h).score ∧
    (predict_one hs30 h).longevity =
      estimate_trend_longevity (predict_one hs30 h).status := by
  unfold predict_one
  exact ⟨clamp_bounds _, status_of_clamp _, rfl⟩

/-- C5: every prediction produced by the trend predictor carries a
clamped score in [5, 95]; its status equals the spec's ordered
thresholds applied to that clamped score, and its longevity is the
fixed string determined by the status. -/
theorem claim_c5_prediction_invariants (hs7 hs30 : List Hashtag) (p : Prediction)
    (hp : p ∈ predict_trend_future hs7 hs30) :
    (5 ≤ p.score ∧ p.score ≤ 95) ∧
    p.status = spec_statusOfScore p.score ∧
    p.longevity = estimate_trend_longevity p.status := by
  unfold predict_trend_future at hp
  have hp2 : p ∈ hs7.map (predict_one hs30) :=
    (List.perm_insertionSort _ _).mem_iff.mp hp
  obtain ⟨h, _, rfl⟩ := List.mem_map.mp hp2
  exact predict_one_props hs30 h

/-- Witness for C5 at a concrete one-hashtag run. -/
theorem claim_c5_witness :
    (5 ≤ (predict_one [] exampleHashtag).score ∧
      (predict_one [] exampleHashtag).score ≤ 95) ∧
    (predict_one [] exampleHashtag).status =
      spec_statusOfScore (predict_one [] exampleHashtag).score ∧
    (predict_one [] exampleHashtag).longevity =
      estimate_trend_longevity (predict_one [] exampleHashtag).status :=
  claim_c5_prediction_invariants [exampleHashtag] [] (predict_one [] exampleHashtag)
    (by decide)

/-- C9: the emerging-trend list is sorted by confidence descending;
every hashtag with (direction up and change > 8) or accelerating
momentum enters it with confidence min(95, 50 + 3*change); every
breakout song enters unconditionally with confidence 90; and nothing
else enters: every entry arises from a qualifying hashtag or a breakout
song. -/
theorem claim_c9_emerging_trends (hs7 : List Hashtag) (breakout : List Song) :
    List.Sorted (fun a b => b.confidence ≤ a.confidence)
      (identify_emerging_trends hs7 breakout) ∧
    (∀ h ∈ hs7, emergingQualifies h = true →
      mkHashtagEmerging h ∈ identify_emerging_trends hs7 breakout ∧
      (mkHashtagEmerging h).confidence = min 95 (50 + 3 * h.ranking_change)) ∧
    (∀ s ∈ breakout,
      mkSongEmerging s ∈ identify_emerging_trends hs7 breakout ∧
      (mkSongEmerging s).confidence = 90) ∧
    (∀ e ∈ identify_emerging_trends hs7 breakout,
      (∃ h ∈ hs7, emergingQualifies h = true ∧ e = mkHashtagEmerging h) ∨
      (∃ s ∈ breakout, e = mkSongEmerging s)) := by
  constructor
  · unfold identify_emerging_trends
    exact List.sorted_insertionSort _ _
  constructor
  · intro h hmem hq
    constructor
    · unfold identify_emerging_trends
      refine (List.perm_insertionSort _ _).mem_iff.mpr ?_
      exact List.mem_append_left _
        (List.mem_map_of_mem _ (List.mem_filter.mpr ⟨hmem, hq⟩))
    · unfold mkHashtagEmerging
      dsimp
      omega
  constructor
  · intro s hmem
    refine ⟨?_, rfl⟩
    unfold identify_emerging_trends
    exact (List.perm_insertionSort _ _).mem_iff.mpr
      (List.mem_append_right _ (List.mem_map_of_mem _ hmem))
  · intro e he
    unfold identify_emerging_trends at he
    have he2 := (List.perm_insertionSort _ _).mem_iff.mp he
    rcases List.mem_append.mp he2 with hA | hB
    · obtain ⟨h, hh, rfl⟩ := List.mem_map.mp hA
      obtain ⟨hh1, hh2⟩ := List.mem_filter.mp hh
      exact Or.inl ⟨h, hh1, hh2, rfl⟩
    · obtain ⟨s, hsmem, rfl⟩ := List.mem_map.mp hB
      exact Or.inr ⟨s, hsmem, rfl⟩

/-- Every cluster emitted by the clustering loop has at least 2 members
and a `size` field equal to its item count, whatever the processed set
and counter. -/
lemma clusterGo_mem : ∀ (rest : List Hashtag) (processed : List String) (k : ℕ)
    (c : Cluster), c ∈ clusterGo rest processed k →
    2 ≤ c.items.length ∧ c.size = c.items.length := by
  intro rest
  induction rest with
  | nil =>
    intro p k c hc
    simp [clusterGo] at hc
  | cons h1 rest ih =>
    intro p k c hc
    simp only [clusterGo] at hc
    split_ifs at hc with hproc hlen
    · exact ih p k c hc
    · rcases List.mem_cons.mp hc with hceq | hrec
      · subst hceq
        unfold mkCluster
        refine ⟨?_, ?_⟩
        · simpa using hlen
        · simp
      · exact ih _ _ c hrec
    · exact ih _ _ c hc

/-- C1 counterexample: on `[#cat, #dog, #catdog]` the clusterer emits
two clusters and `#catdog` is a member of both, because the inner scan
does not skip already-assigned hashtags — only seed selection does. -/
theorem claim_c1_counterexample :
    cluster_hashtags clusterCounterexampleInput =
      [{ id := "cluster_0", items := [("#cat", 1), ("#catdog", 3)], size := 2,
         categories := [], trend_strength := 0 },
       { id := "cluster_1", items := [("#dog", 2), ("#catdog", 3)], size := 2,
         categories := [], trend_strength := 0 }] ∧
    (cluster_hashtags clusterCounterexampleInput).countP
      (fun c => c.items.any (fun it => it.1 == "#catdog")) = 2 :=
  ⟨rfl, rfl⟩

/-- C1 amended: every cluster produced by the similarity clusterer has
size ≥ 2 (and its size field equals its item count); however a hashtag
may appear in more than one cluster, since only seed selection skips
already-assigned hashtags. -/
theorem claim_c1_amended (hs : List Hashtag) (c : Cluster)
    (hc : c ∈ cluster_hashtags hs) :
    2 ≤ c.items.length ∧ c.size = c.items.length :=
  clusterGo_mem hs [] 0 c hc

/-- Witness for the amended C1 on the first cluster of the concrete
counterexample input. -/
theorem claim_c1_witness :
    2 ≤ (Cluster.mk "cluster_0" [("#cat", 1), ("#catdog", 3)] 2 [] 0).items.length ∧
    (Cluster.mk "cluster_0" [("#cat", 1), ("#catdog", 3)] 2 [] 0).size =
      (Cluster.mk "cluster_0" [("#cat", 1), ("#catdog", 3)] 2 [] 0).items.length :=
  claim_c1_amended clusterCounterexampleInput _ (by decide)

/-- `firstSeenAux` only membership-tests `seen`, so any two seen lists
with the same members give the same result. -/
lemma firstSeenAux_congr {α : Type} [DecidableEq α] :
    ∀ (l : List α) (s₁ s₂ : List α), (∀ y, y ∈ s₁ ↔ y ∈ s₂) →
      firstSeenAux l s₁ = firstSeenAux l s₂ := by
  intro l
  induction l with
  | nil => intro s₁ s₂ _; rfl
  | cons a l ih =>
    intro s₁ s₂ h
    simp only [firstSeenAux]
    by_cases ha : a ∈ s₁
    · rw [if_pos ha, if_pos ((h a).mp ha), ih _ _ h]
    · rw [if_neg ha, if_neg (fun hmem => ha ((h a).mpr hmem))]
      exact congrArg (List.cons a)
        (ih (a :: s₁) (a :: s₂) (fun y => by simp [List.mem_cons, h y]))

/-- Pushing an element into `seen` is the same as filtering it out of
the remaining input. -/
lemma firstSeenAux_insert {α : Type} [DecidableEq α] :
    ∀ (l : List α) (x : α) (seen : List α),
      firstSeenAux l (x :: seen) = firstSeenAux (l.filter (· ≠ x)) seen := by
  intro l
  induction l with
  | nil => intro x seen; rfl
  | cons c l ih =>
    intro x seen
    by_cases hcx : c = x
    · subst hcx
      simp only [firstSeenAux, List.filter_cons]
      rw [if_pos (List.mem_cons_self c seen), if_neg (by simp)]
      exact ih c seen
    · simp only [firstSeenAux, List.filter_cons]
      by_cases hcs : c ∈ seen
      · rw [if_pos (List.mem_cons_of_mem _ hcs),
          if_pos (show (decide (c ≠ x)) = true by simp [hcx])]
        simp only [firstSeenAux]
        rw [if_pos hcs]
        exact ih x seen
      · have hnot : c ∉ x :: seen := by simp [hcx, hcs]
        rw [if_neg hnot, if_pos (show (decide (c ≠ x)) = true by simp [hcx])]
        simp only [firstSeenAux]
        rw [if_neg hcs]
        congr 1
        calc firstSeenAux l (c :: x :: seen)
            = firstSeenAux l (x :: c :: seen) :=
              firstSeenAux_congr l _ _ (fun y => by
                simp only [List.mem_cons]; tauto)
          _ = firstSeenAux (l.filter (· ≠ x)) (c :: seen) := ih x (c :: seen)

/-- Unfolding equation for `firstSeen` in the style convenient for
counting arguments. -/
lemma firstSeen_cons {α : Type} [DecidableEq α] (a : α) (l : List α) :
    firstSeen (a :: l) = a :: firstSeen (l.filter (· ≠ a)) := by
  unfold firstSeen
  simp only [firstSeenAux]
  rw [if_neg (List.not_mem_nil a), firstSeenAux_insert]

/-- Elements of `firstSeenAux l seen` come from `l`. -/
lemma mem_firstSeenAux {α : Type} [DecidableEq α] :
    ∀ (l seen : List α) (x : α), x ∈ firstSeenAux l seen → x ∈ l := by
  intro l
  induction l with
  | nil => intro seen x hx; simp [firstSeenAux] at hx
  | cons a l ih =>
    intro seen x hx
    simp only [firstSeenAux] at hx
    by_cases ha : a ∈ seen
    · rw [if_pos ha] at hx
      exact List.mem_cons_of_mem _ (ih _ _ hx)
    · rw [if_neg ha] at hx
      rcases List.mem_cons.mp hx with rfl | hx2
      · exact List.mem_cons_self _ _
      · exact List.mem_cons_of_mem _ (ih _ _ hx2)

/-- Elements of `firstSeen l` come from `l`. -/
lemma mem_firstSeen {α : Type} [DecidableEq α] (l : List α) (x : α)
    (hx : x ∈ firstSeen l) : x ∈ l :=
  mem_firstSeenAux l [] x hx

/-- Occurrences of `a` plus everything else is the whole list. -/
lemma count_add_filter_length {α : Type} [DecidableEq α] (a : α) :
    ∀ t : List α, t.count a + (t.filter (· ≠ a)).length = t.length := by
  intro t
  induction t with
  | nil => rfl
  | cons c t ih =>
    rw [List.filter_cons]
    by_cases hca : c = a
    · subst hca
      rw [List.count_cons_self, if_neg (by simp), List.length_cons]
      omega
    · rw [List.count_cons_of_ne (fun h => hca h.symm), if_pos (by simp [hca]),
        List.length_cons, List.length_cons]
      omega

/-- Summing the multiplicities of the distinct elements of a list
recovers its length. -/
lemma sum_count_firstSeen {α : Type} [DecidableEq α] :
    ∀ (n : ℕ) (l : List α), l.length ≤ n →
      ((firstSeen l).map (fun c => l.count c)).sum = l.length := by
  intro n
  induction n with
  | zero =>
    intro l hl
    have : l = [] := List.length_eq_zero.mp (Nat.le_zero.mp hl)
    subst this
    rfl
  | succ n ih =>
    intro l hl
    match l with
    | [] => rfl
    | a :: t =>
      rw [firstSeen_cons]
      simp only [List.map_cons, List.sum_cons]
      have hfl : (t.filter (· ≠ a)).length ≤ n := by
        have h1 := List.length_filter_le (fun c => decide (c ≠ a)) t
        simp only [List.length_cons] at hl
        omega
      have hmap : (firstSeen (t.filter (· ≠ a))).map (fun c => (a :: t).count c)
          = (firstSeen (t.filter (· ≠ a))).map
              (fun c => (t.filter (· ≠ a)).count c) := by
        apply List.map_congr_left
        intro c hc
        have hcf : c ∈ t.filter (· ≠ a) := mem_firstSeen _ _ hc
        have hcne : c ≠ a := by simpa using List.of_mem_filter hcf
        have hcount : (t.filter (· ≠ a)).count c = t.count c :=
          List.count_filter (by simp [hcne])
        rw [List.count_cons_of_ne hcne, ← hcount]
      rw [hmap, ih _ hfl, List.count_cons_self]
      have := count_add_filter_length a t
      simp only [List.length_cons]
      omega

/-- Sorting does not change a mapped sum. -/
lemma insertionSort_map_sum {α β : Type} [AddCommMonoid β]
    (r : α → α → Prop) [DecidableRel r] (l : List α) (f : α → β) :
    ((List.insertionSort r l).map f).sum = (l.map f).sum :=
  ((List.perm_insertionSort r l).map f).sum_eq

/-- Any function of the per-category counts sums the same over the
category stats as over the distinct categories. -/
lemma analyze_categories_counts (hs : List Hashtag) (hne : hs ≠ []) (f : ℕ → ℚ) :
    ((analyze_categories hs).map (fun s => f s.count)).sum =
      ((firstSeen (hs.flatMap (fun h => h.categories.getD ["other"]))).map
        (fun c => f ((hs.flatMap (fun h => h.categories.getD ["other"])).count c))).sum := by
  unfold analyze_categories
  rw [if_neg hne, insertionSort_map_sum, List.map_map]
  rfl


theorem claim_c3_amended (hs : List Hashtag)
    (htot : 0 < (hs.flatMap (fun h => h.categories.getD ["other"])).length) :
    ((analyze_categories hs).map (fun s => (s.count : ℚ))).sum
        = ((hs.flatMap (fun h => h.categories.getD ["other"])).length : ℚ) ∧
    ((analyze_categories hs).map (fun s => (s.count : ℚ) /
        ((hs.flatMap (fun h => h.categories.getD ["other"])).length : ℚ) * 100)).sum
      = 100 := by
  have hne : hs ≠ [] := by
    intro h
    rw [h] at htot
    simp at htot
  have hLne : ((hs.flatMap (fun h => h.categories.getD ["other"])).length : ℚ) ≠ 0 := by
    exact_mod_cast htot.ne'
  have hsumQ : ((firstSeen (hs.flatMap (fun h => h.categories.getD ["other"]))).map
      (fun c => ((hs.flatMap (fun h => h.categories.getD ["other"])).count c : ℚ))).sum
      = ((hs.flatMap (fun h => h.categories.getD ["other"])).length : ℚ) := by
    rw [show ((firstSeen (hs.flatMap (fun h => h.categories.getD ["other"]))).map
        (fun c => ((hs.flatMap (fun h => h.categories.getD ["other"])).count c : ℚ)))
      = (((firstSeen (hs.flatMap (fun h => h.categories.getD ["other"]))).map
        (fun c => (hs.flatMap (fun h => h.categories.getD ["other"])).count c)).map
          (fun n : ℕ => (n : ℚ))) from by rw [List.map_map]; rfl]
    rw [← Nat.cast_list_sum]
    rw [sum_count_firstSeen
      (hs.flatMap (fun h => h.categories.getD ["other"])).length _ le_rfl]
  constructor
  · rw [analyze_categories_counts hs hne (fun n => (n : ℚ))]
    exact hsumQ
  · rw [analyze_categories_counts hs hne (fun n => (n : ℚ) /
      ((hs.flatMap (fun h => h.categories.getD ["other"])).length : ℚ) * 100)]
    rw [List.map_congr_left (fun c _ => by
      ring :
      ∀ c ∈ firstSeen (hs.flatMap (fun h => h.categories.getD ["other"])),
        ((hs.flatMap (fun h => h.categories.getD ["other"])).count c : ℚ) /
            ((hs.flatMap (fun h => h.categories.getD ["other"])).length : ℚ) * 100 =
          ((hs.flatMap (fun h => h.categories.getD ["other"])).count c : ℚ) *
            (100 / ((hs.flatMap (fun h => h.categories.getD ["other"])).length : ℚ)))]
    rw [List.sum_map_mul_right, hsumQ, mul_div_assoc', mul_div_cancel_left₀ _ hLne]


/-- `Rat.floor` agrees with the floor of the `FloorRing` instance. -/
lemma rat_floor_eq_floor (q : ℚ) : Rat.floor q = ⌊q⌋ := by
  rw [Rat.floor_def', Rat.floor_def]

/-- `round(100/3, 1) = 33.3`. -/
lemma pyRound1_one_third : pyRound1 (((1:ℕ):ℚ)/((3:ℕ):ℚ)*100) = 333/10 := by
  simp only [pyRound1, rat_floor_eq_floor]
  norm_num

theorem claim_c3_counterexample :
    (∀ h ∈ categoryCounterexampleInput, (h.categories.getD ["other"]).length ≤ 1) ∧
    ((analyze_categories categoryCounterexampleInput).map
      (fun s => s.percentage)).sum = 999 / 10 ∧
    (999 / 10 : ℚ) ≠ 100 := by
  refine ⟨by decide, ?_, by norm_num⟩
  have hmap : (analyze_categories categoryCounterexampleInput).map
      (fun s => s.percentage) =
      [pyRound1 (((1:ℕ):ℚ)/((3:ℕ):ℚ)*100), pyRound1 (((1:ℕ):ℚ)/((3:ℕ):ℚ)*100),
       pyRound1 (((1:ℕ):ℚ)/((3:ℕ):ℚ)*100)] := rfl
  rw [hmap, pyRound1_one_third]
  norm_num

theorem claim_c3_witness :
    ((analyze_categories categoryCounterexampleInput).map
        (fun s => (s.count : ℚ))).sum
      = ((categoryCounterexampleInput.flatMap
          (fun h => h.categories.getD ["other"])).length : ℚ) ∧
    ((analyze_categories categoryCounterexampleInput).map (fun s => (s.count : ℚ) /
        ((categoryCounterexampleInput.flatMap
          (fun h => h.categories.getD ["other"])).length : ℚ) * 100)).sum = 100 :=
  claim_c3_amended categoryCounterexampleInput (by decide)

/-- A predicate true on all of `l` keeps `takeWhile` going through it. -/
lemma takeWhile_append_all {p : Char → Bool} {l r : List Char}
    (h : ∀ c ∈ l, p c = true) :
    (l ++ r).takeWhile p = l ++ r.takeWhile p := by
  induction l with
  | nil => simp
  | cons c t ih =>
    have hc : p c = true := h c (List.mem_cons_self _ _)
    simp only [List.cons_append, List.takeWhile_cons, hc, if_true]
    rw [ih (fun x hx => h x (List.mem_cons_of_mem _ hx))]

/-- A predicate true on all of `l` makes `dropWhile` skip it. -/
lemma dropWhile_append_all {p : Char → Bool} {l r : List Char}
    (h : ∀ c ∈ l, p c = true) :
    (l ++ r).dropWhile p = r.dropWhile p := by
  induction l with
  | nil => simp
  | cons c t ih =>
    have hc : p c = true := h c (List.mem_cons_self _ _)
    simp only [List.cons_append, List.dropWhile_cons, hc, if_true]
    exact ih (fun x hx => h x (List.mem_cons_of_mem _ hx))

/-- A predicate true on all of `l` makes `takeWhile` the identity. -/
lemma takeWhile_all {p : Char → Bool} {l : List Char}
    (h : ∀ c ∈ l, p c = true) : l.takeWhile p = l := by
  have := takeWhile_append_all (r := []) h
  simpa using this

/-- A predicate true on all of `l` makes `dropWhile` empty. -/
lemma dropWhile_all {p : Char → Bool} {l : List Char}
    (h : ∀ c ∈ l, p c = true) : l.dropWhile p = [] := by
  have := dropWhile_append_all (r := []) h
  simpa using this

/-- A digit character differs from any non-digit character. -/
lemma digit_ne {c x : Char} (h : c.isDigit = true) (hx : x.isDigit = false) :
    c ≠ x := by
  intro he
  rw [he, hx] at h
  cases h

/-- Uppercasing fixes digits: their code points lie below the lowercase
letters. -/
lemma toUpper_of_isDigit {c : Char} (h : c.isDigit = true) : c.toUpper = c := by
  have h2 : c.toNat ≤ 57 := by
    simp [Char.isDigit] at h
    exact h.2
  rw [Char.toUpper, if_neg (by omega)]

/-- Membership gives a true `contains`. -/
lemma contains_true {l : List Char} {a : Char} (h : a ∈ l) :
    l.contains a = true :=
  List.elem_iff.mpr h

/-- Non-membership gives a false `contains`. -/
lemma contains_false {l : List Char} {a : Char} (h : a ∉ l) :
    l.contains a = false :=
  eq_false_of_ne_true (fun hc => h (List.elem_iff.mp hc))

/-- The regex scanner finds nothing in a digit-free list. -/
lemma firstNumericMatch_no_digit :
    ∀ {l : List Char}, (∀ c ∈ l, c.isDigit = false) →
      firstNumericMatch l = Option.none := by
  intro l
  induction l with
  | nil => intro _; rfl
  | cons c t ih =>
    intro h
    rw [firstNumericMatch, if_neg (by
      rw [h c (List.mem_cons_self _ _)]
      exact Bool.false_ne_true)]
    exact ih (fun x hx => h x (List.mem_cons_of_mem _ hx))

/-- The regex scanner on `digits ++ '.' :: digits` matches the whole
decimal literal. -/
lemma firstNumericMatch_dot (ds fs : List Char) (hds : ds ≠ [])
    (hd : ∀ c ∈ ds, c.isDigit = true) (hf : ∀ c ∈ fs, c.isDigit = true) :
    firstNumericMatch (ds ++ '.' :: fs) = some (ds, fs) := by
  obtain ⟨d, ds', rfl⟩ := List.exists_cons_of_ne_nil hds
  rw [List.cons_append, firstNumericMatch,
    if_pos (hd d (List.mem_cons_self _ _))]
  rw [← List.cons_append, takeWhile_append_all hd, dropWhile_append_all hd]
  rw [List.takeWhile_cons, List.dropWhile_cons,
    (by decide : ('.'.isDigit) = false)]
  simp only [Bool.false_eq_true, if_false, List.append_nil]
  rw [takeWhile_all hf]

/-- The regex scanner on a pure digit string matches all of it. -/
lemma firstNumericMatch_int (ds : List Char) (hds : ds ≠ [])
    (hd : ∀ c ∈ ds, c.isDigit = true) :
    firstNumericMatch ds = some (ds, []) := by
  obtain ⟨d, ds', rfl⟩ := List.exists_cons_of_ne_nil hds
  rw [firstNumericMatch, if_pos (hd d (List.mem_cons_self _ _))]
  rw [takeWhile_all hd, dropWhile_all hd]

/-- The letters K, M, B never occur among digits and dots. -/
lemma not_mem_mid {mid : List Char} {x : Char}
    (hmid : ∀ c ∈ mid, c.isDigit = true ∨ c = '.')
    (hx1 : x.isDigit = false) (hx2 : x ≠ '.') : x ∉ mid := by
  intro hx
  rcases hmid x hx with h | h
  · rw [hx1] at h
    cases h
  · exact hx2 h

/-- On a digits-and-dots prefix followed by a single suffix letter,
`pickMult` selects that letter's multiplier and strips exactly the
suffix. -/
lemma pickMult_strip (mid : List Char) (SUF : Char) (mult : ℚ)
    (hmid : ∀ c ∈ mid, c.isDigit = true ∨ c = '.')
    (hsuf : (SUF = 'K' ∧ mult = 1000) ∨ (SUF = 'M' ∧ mult = 1000000) ∨
      (SUF = 'B' ∧ mult = 1000000000)) :
    pickMult (mid ++ [SUF]) = (mult, mid) := by
  have hfil : ∀ (y : Char), y.isDigit = false → y ≠ '.' →
      (mid ++ [SUF]).filter (fun c => decide (c ≠ y)) =
        mid ++ [SUF].filter (fun c => decide (c ≠ y)) := by
    intro y hy1 hy2
    rw [List.filter_append, List.filter_eq_self.mpr]
    intro a ha
    exact decide_eq_true (fun he => not_mem_mid hmid hy1 hy2 (he ▸ ha))
  rcases hsuf with ⟨rfl, rfl⟩ | ⟨rfl, rfl⟩ | ⟨rfl, rfl⟩
  · have hK : (mid ++ ['K']).contains 'K' = true :=
      contains_true (by simp)
    rw [pickMult, if_pos hK, hfil 'K' (by decide) (by decide)]
    simp
  · have hK : (mid ++ ['M']).contains 'K' = false := by
      refine contains_false ?_
      intro hmem
      rcases List.mem_append.mp hmem with h | h
      · exact not_mem_mid hmid (by decide) (by decide) h
      · simp at h
    have hM : (mid ++ ['M']).contains 'M' = true :=
      contains_true (by simp)
    rw [pickMult, if_neg (by rw [hK]; exact Bool.false_ne_true),
      if_pos hM, hfil 'M' (by decide) (by decide)]
    simp
  · have hK : (mid ++ ['B']).contains 'K' = false := by
      refine contains_false ?_
      intro hmem
      rcases List.mem_append.mp hmem with h | h
      · exact not_mem_mid hmid (by decide) (by decide) h
      · simp at h
    have hM : (mid ++ ['B']).contains 'M' = false := by
      refine contains_false ?_
      intro hmem
      rcases List.mem_append.mp hmem with h | h
      · exact not_mem_mid hmid (by decide) (by decide) h
      · simp at h
    have hB : (mid ++ ['B']).contains 'B' = true :=
      contains_true (by simp)
    rw [pickMult, if_neg (by rw [hK]; exact Bool.false_ne_true),
      if_neg (by rw [hM]; exact Bool.false_ne_true),
      if_pos hB, hfil 'B' (by decide) (by decide)]
    simp

/-- Mapping `toUpper` over digits is the identity. -/
lemma map_toUpper_digits {l : List Char} (h : ∀ c ∈ l, c.isDigit = true) :
    l.map Char.toUpper = l := by
  rw [List.map_congr_left (fun c hc => toUpper_of_isDigit (h c hc))]
  exact List.map_id' l

/-- Evaluation of `parse_count` on a string of the form
`digits.digits` followed by a suffix letter. -/
lemma parse_count_dot_suffix (ds fs : List Char) (suf : Char) (mult : ℚ)
    (hds : ds ≠ []) (hd : ∀ c ∈ ds, c.isDigit = true)
    (hf : ∀ c ∈ fs, c.isDigit = true)
    (hsuf : (suf.toUpper = 'K' ∧ mult = 1000) ∨
      (suf.toUpper = 'M' ∧ mult = 1000000) ∨
      (suf.toUpper = 'B' ∧ mult = 1000000000)) :
    parse_count (.str ⟨ds ++ ('.' :: fs) ++ [suf]⟩) =
      ((digitsVal ds : ℚ) + fracVal fs) * mult := by
  obtain ⟨d, ds', rfl⟩ := List.exists_cons_of_ne_nil hds
  have hU : suf.toUpper.isDigit = false ∧ suf.toUpper ≠ ',' ∧ suf.toUpper ≠ '.' := by
    rcases hsuf with ⟨h, _⟩ | ⟨h, _⟩ | ⟨h, _⟩ <;> rw [h] <;> exact ⟨by decide, by decide, by decide⟩
  have hmid : ∀ c ∈ (d :: ds') ++ ('.' :: fs), c.isDigit = true ∨ c = '.' := by
    intro c hc
    rcases List.mem_append.mp hc with h | h
    · exact Or.inl (hd c h)
    · rcases List.mem_cons.mp h with rfl | h
      · exact Or.inr rfl
      · exact Or.inl (hf c h)
  have hfal : (PyVal.str ⟨(d :: ds') ++ ('.' :: fs) ++ [suf]⟩).isFalsy = false := by
    simp [PyVal.isFalsy]
  have hmap : (((d :: ds') ++ ('.' :: fs) ++ [suf]).map Char.toUpper)
      = (d :: ds') ++ ('.' :: fs) ++ [suf.toUpper] := by
    rw [List.map_append, List.map_append, map_toUpper_digits hd,
      List.map_cons, map_toUpper_digits hf, List.map_cons, List.map_nil]
    rfl
  have hfil : ((d :: ds') ++ ('.' :: fs) ++ [suf.toUpper]).filter
      (fun c => decide (c ≠ ',')) = (d :: ds') ++ ('.' :: fs) ++ [suf.toUpper] := by
    rw [List.filter_eq_self]
    intro a ha
    refine decide_eq_true ?_
    rcases List.mem_append.mp ha with h | h
    · rcases hmid a h with hdig | rfl
      · exact digit_ne hdig (by decide)
      · decide
    · rw [List.mem_singleton.mp h]
      exact hU.2.1
  simp only [parse_count, hfal, Bool.false_eq_true, if_false]
  rw [hmap, hfil, pickMult_strip _ _ _ hmid hsuf]
  rw [firstNumericMatch_dot (d :: ds') fs (by simp) hd hf]
  rfl

/-- Evaluation of `parse_count` on a digit string followed by a suffix
letter. -/
lemma parse_count_int_suffix (ds : List Char) (suf : Char) (mult : ℚ)
    (hds : ds ≠ []) (hd : ∀ c ∈ ds, c.isDigit = true)
    (hsuf : (suf.toUpper = 'K' ∧ mult = 1000) ∨
      (suf.toUpper = 'M' ∧ mult = 1000000) ∨
      (suf.toUpper = 'B' ∧ mult = 1000000000)) :
    parse_count (.str ⟨ds ++ [suf]⟩) = (digitsVal ds : ℚ) * mult := by
  obtain ⟨d, ds', rfl⟩ := List.exists_cons_of_ne_nil hds
  have hU : suf.toUpper.isDigit = false ∧ suf.toUpper ≠ ',' ∧ suf.toUpper ≠ '.' := by
    rcases hsuf with ⟨h, _⟩ | ⟨h, _⟩ | ⟨h, _⟩ <;> rw [h] <;>
      exact ⟨by decide, by decide, by decide⟩
  have hmid : ∀ c ∈ d :: ds', c.isDigit = true ∨ c = '.' :=
    fun c hc => Or.inl (hd c hc)
  have hfal : (PyVal.str ⟨(d :: ds') ++ [suf]⟩).isFalsy = false := by
    simp [PyVal.isFalsy]
  have hmap : List.map Char.toUpper ((d :: ds') ++ [suf])
      = (d :: ds') ++ [suf.toUpper] := by
    rw [List.map_append, map_toUpper_digits hd, List.map_cons, List.map_nil]
  have hfil : List.filter (fun c => decide (c ≠ ',')) ((d :: ds') ++ [suf.toUpper])
      = (d :: ds') ++ [suf.toUpper] := by
    rw [List.filter_eq_self]
    intro a ha
    refine decide_eq_true ?_
    rcases List.mem_append.mp ha with h | h
    · exact digit_ne (hd a h) (by decide)
    · rw [List.mem_singleton.mp h]
      exact hU.2.1
  simp only [parse_count, hfal, Bool.false_eq_true, if_false]
  rw [hmap, hfil, pickMult_strip _ _ _ hmid hsuf]
  rw [firstNumericMatch_int (d :: ds') (by simp) hd]
  show ((digitsVal (d :: ds') : ℚ) + fracVal []) * mult = _
  simp [fracVal, digitsVal]

/-- Whatever branch `pickMult` takes, its remainder is drawn from its
input. -/
lemma pickMult_sub (cs : List Char) : ∀ c ∈ (pickMult cs).2, c ∈ cs := by
  unfold pickMult
  split_ifs <;> intro c hc
  · exact (List.mem_filter.mp hc).1
  · exact (List.mem_filter.mp hc).1
  · exact (List.mem_filter.mp hc).1
  · exact hc

/-- A string without digits (after uppercasing) parses to 0. -/
lemma parse_count_no_digit (s : String)
    (h : ∀ c ∈ s.data.map Char.toUpper, c.isDigit = false) :
    parse_count (.str s) = 0 := by
  by_cases hne : s.data = []
  · have hfal : (PyVal.str s).isFalsy = true := by
      simp [PyVal.isFalsy, hne]
    simp only [parse_count, hfal, if_true]
  · have hfal : (PyVal.str s).isFalsy = false := by
      simp [PyVal.isFalsy, hne]
    simp only [parse_count, hfal, Bool.false_eq_true, if_false]
    have hnil : firstNumericMatch
        (pickMult ((s.data.map Char.toUpper).filter
          (fun c => decide (c ≠ ',')))).2 = Option.none := by
      apply firstNumericMatch_no_digit
      intro c hc
      exact h c (List.mem_filter.mp (pickMult_sub _ c hc)).1
    rw [hnil]

/-- Removing a comma anywhere in the string does not change the parse. -/
lemma parse_count_comma (u v : List Char) :
    parse_count (.str ⟨u ++ ',' :: v⟩) = parse_count (.str ⟨u ++ v⟩) := by
  have hcs : List.filter (fun c => decide (c ≠ ','))
        (List.map Char.toUpper (u ++ ',' :: v))
      = List.filter (fun c => decide (c ≠ ','))
        (List.map Char.toUpper (u ++ v)) := by
    rw [List.map_append, List.map_append, List.map_cons,
      List.filter_append, List.filter_append, List.filter_cons]
    have hcomma : Char.toUpper ',' = ',' := rfl
    rw [hcomma]
    simp
  by_cases hne : u ++ v = []
  · have hu : u = [] := by
      cases u with
      | nil => rfl
      | cons a t => simp at hne
    subst hu
    have hv : v = [] := by simpa using hne
    subst hv
    rfl
  · have h1 : (PyVal.str ⟨u ++ ',' :: v⟩).isFalsy = false := by
      simp [PyVal.isFalsy]
    have h2 : (PyVal.str ⟨u ++ v⟩).isFalsy = false := by
      simp [PyVal.isFalsy, hne]
    simp only [parse_count, h1, h2, Bool.false_eq_true, if_false]
    rw [hcs]

/-- `parse_count` returns numeric input unchanged (also the zero it
maps falsy input to). -/
lemma parse_count_num (q : ℚ) : parse_count (.num q) = q := by
  by_cases h : q = 0
  · subst h
    rfl
  · have hfal : (PyVal.num q).isFalsy = false := by
      simp [PyVal.isFalsy, h]
    simp only [parse_count, hfal, Bool.false_eq_true, if_false]

/-- The lowercase and uppercase suffix letters and their multipliers. -/
lemma suffix_cases (suf : Char) (mult : ℚ)
    (hmem : (suf, mult) ∈ suffixMultipliers) :
    (suf.toUpper = 'K' ∧ mult = 1000) ∨
    (suf.toUpper = 'M' ∧ mult = 1000000) ∨
    (suf.toUpper = 'B' ∧ mult = 1000000000) := by
  simp only [suffixMultipliers, List.mem_cons, List.not_mem_nil, or_false,
    Prod.ext_iff] at hmem
  rcases hmem with ⟨rfl, rfl⟩ | ⟨rfl, rfl⟩ | ⟨rfl, rfl⟩ | ⟨rfl, rfl⟩ |
    ⟨rfl, rfl⟩ | ⟨rfl, rfl⟩
  · exact Or.inl ⟨by decide, rfl⟩
  · exact Or.inl ⟨by decide, rfl⟩
  · exact Or.inr (Or.inl ⟨by decide, rfl⟩)
  · exact Or.inr (Or.inl ⟨by decide, rfl⟩)
  · exact Or.inr (Or.inr ⟨by decide, rfl⟩)
  · exact Or.inr (Or.inr ⟨by decide, rfl⟩)

/-- C8: the post-count parser multiplies decimal literals carrying a
K/M/B suffix (either case) by 1e3/1e6/1e9; commas are stripped;
digit-free strings and missing input parse to 0; and the parse is the
identity on numeric input, hence idempotent. -/
theorem claim_c8_parse_count :
    (∀ (ds fs : List Char) (suf : Char) (mult : ℚ), ds ≠ [] →
      (∀ c ∈ ds, c.isDigit = true) → (∀ c ∈ fs, c.isDigit = true) →
      (suf, mult) ∈ suffixMultipliers →
      parse_count (.str ⟨ds ++ ('.' :: fs) ++ [suf]⟩) =
        ((digitsVal ds : ℚ) + fracVal fs) * mult) ∧
    (∀ (ds : List Char) (suf : Char) (mult : ℚ), ds ≠ [] →
      (∀ c ∈ ds, c.isDigit = true) → (suf, mult) ∈ suffixMultipliers →
      parse_count (.str ⟨ds ++ [suf]⟩) = (digitsVal ds : ℚ) * mult) ∧
    (∀ u v : List Char,
      parse_count (.str ⟨u ++ ',' :: v⟩) = parse_count (.str ⟨u ++ v⟩)) ∧
    (∀ s : String, (∀ c ∈ s.data.map Char.toUpper, c.isDigit = false) →
      parse_count (.str s) = 0) ∧
    parse_count .none = 0 ∧
    (∀ v : PyVal, parse_count (.num (parse_count v)) = parse_count v) := by
  refine ⟨?_, ?_, parse_count_comma, parse_count_no_digit, rfl,
    fun v => parse_count_num (parse_count v)⟩
  · intro ds fs suf mult h1 h2 h3 hmem
    exact parse_count_dot_suffix ds fs suf mult h1 h2 h3 (suffix_cases suf mult hmem)
  · intro ds suf mult h1 h2 hmem
    exact parse_count_int_suffix ds suf mult h1 h2 (suffix_cases suf mult hmem)

/-- Witness for C8: `"1.2M"` parses to 1.2e6 (and instantiates the
dotted-suffix clause). -/
theorem claim_c8_witness :
    parse_count (.str ⟨['1'] ++ ('.' :: ['2']) ++ ['M']⟩) =
      ((digitsVal ['1'] : ℚ) + fracVal ['2']) * 1000000 :=
  claim_c8_parse_count.1 ['1'] ['2'] 'M' 1000000 (by decide) (by decide)
    (by decide) (by decide)
